import Mathlib

/-!
Verification of the data-access layer implemented by the two example
applications in this repository: a task manager (`basic_crud_app.py`,
class `TaskManager`) and a blog platform (`blog_system.py`, class
`BlogSystem`).

The embedding is shallow: the MongoDB collections become lists of
documents inside an explicit state record, timestamps become `Int`
(seconds), and each manager method becomes a pure function from the old
state (plus a `now` parameter standing for `datetime.utcnow()`) to the
new state together with the method's return value.  MongoDB operation
semantics that the code relies on are modelled explicitly:
`update_one`/`delete_one` act on the first matching document,
`modified_count` counts a document only when the applied `$set` actually
changed it, a `$lt`/`$gte` comparison against a date never matches a
`null` field, `$pull` removes every equal list element and `$push`
appends one.
-/

/-- Model of `bson.ObjectId.is_valid` on strings: a 24 character hex
string. -/
def isHexDigit (c : Char) : Bool :=
  c.isDigit || (('a' ≤ c) && (c ≤ 'f')) || (('A' ≤ c) && (c ≤ 'F'))

def isValidObjectId (s : String) : Bool :=
  s.length == 24 && s.toList.all isHexDigit

/-- The database-assigned `_id` for the `n`-th inserted document: `n` in
hexadecimal, zero-padded to the 24 characters of an ObjectId. -/
def oidOf (n : Nat) : String :=
  let ds := Nat.toDigits 16 n
  String.mk (List.replicate (24 - ds.length) '0' ++ ds)

/-- `f"{n:04d}"` for the `TASK-%04d` identifiers. -/
def pad4 (n : Nat) : String :=
  let s := toString n
  String.mk (List.replicate (4 - s.length) '0') ++ s

/-! ## Task application (`basic_crud_app.py`) -/

/-- A document of the `users` collection, as inserted by
`TaskManager.create_user`. -/
structure TMUser where
  oid : String
  username : String
  email : String
  full_name : String
  created_at : Int
  task_count : Int
  active : Bool
deriving DecidableEq, Repr

/-- An embedded task comment, as pushed by `add_comment_to_task`. -/
structure TaskComment where
  text : String
  author : String
  created_at : Int
deriving DecidableEq, Repr

/-- A document of the `tasks` collection, fields as in
`TaskManager.create_task`. -/
structure TaskDoc where
  oid : String
  task_id : String
  title : String
  description : String
  user_id : String
  status : String
  priority : String
  created_at : Int
  updated_at : Int
  due_date : Option Int
  completed_at : Option Int
  tags : List String
  comments : List TaskComment
deriving DecidableEq, Repr

/-- The task-management database: the two collections plus the source of
fresh ObjectIds. -/
structure TaskDB where
  users : List TMUser
  tasks : List TaskDoc
  nextOid : Nat
deriving DecidableEq, Repr

/-- The query built by `get_task` / `update_task` / `delete_task` from a
task identifier: `{"_id": ObjectId(x)}` when the string is a valid
ObjectId, else `{"task_id": x}`. -/
def taskMatches (identifier : String) (t : TaskDoc) : Bool :=
  if isValidObjectId identifier then t.oid == identifier else t.task_id == identifier

/-- `users.update_one({"_id": uid}, {"$inc": {"task_count": delta}})`:
bump the first (the `_id`-unique) matching user's counter. -/
def incTaskCount (users : List TMUser) (uid : String) (delta : Int) : List TMUser :=
  match users with
  | [] => []
  | u :: rest =>
    if u.oid == uid then { u with task_count := u.task_count + delta } :: rest
    else u :: incTaskCount rest uid delta

/-- The `task_count` field of the user with the given `_id`, if any. -/
def countOf (users : List TMUser) (uid : String) : Option Int :=
  (users.find? (fun u => u.oid == uid)).map (fun u => u.task_count)

/-- `TaskManager.create_task`.  The `task_id` is derived from the current
document count; inserting a duplicate `task_id` violates the unique index
(`DuplicateKeyError`), is caught, and returns `None` with nothing
written.  After a successful insert the owner's `task_count` is
incremented as a separate follow-up `update_one`; if `user_id` is not a
valid ObjectId string, `ObjectId(user_id)` raises after the insert, the
broad `except` returns `None`, and the task stays inserted. -/
def create_task (db : TaskDB) (title description user_id : String)
    (priority : String) (due_date : Option Int) (now : Int) :
    Option String × TaskDB :=
  let task_id := "TASK-" ++ pad4 (db.tasks.length + 1)
  let t : TaskDoc :=
    { oid := oidOf db.nextOid, task_id := task_id, title := title,
      description := description, user_id := user_id, status := "todo",
      priority := priority, created_at := now, updated_at := now,
      due_date := due_date, completed_at := none, tags := [], comments := [] }
  if db.tasks.any (fun x => x.task_id == task_id) then
    (none, db)
  else
    let db1 : TaskDB := { db with tasks := db.tasks ++ [t], nextOid := db.nextOid + 1 }
    if isValidObjectId user_id then
      (some t.oid, { db1 with users := incTaskCount db1.users user_id 1 })
    else
      (none, db1)

/-- `TaskManager.get_task`: `find_one` on the identifier query. -/
def get_task (db : TaskDB) (identifier : String) : Option TaskDoc :=
  db.tasks.find? (taskMatches identifier)

/-- The three query shapes `TaskManager.get_user` can build. -/
inductive UserQuery where
  | byId : String → UserQuery
  | byEmail : String → UserQuery
  | byUsername : String → UserQuery
deriving DecidableEq, Repr

/-- The query selection of `TaskManager.get_user`: ObjectId shape first,
then `"@" in identifier` (the character `'@'` occurs in the string), else
username. -/
def userQueryOf (identifier : String) : UserQuery :=
  if isValidObjectId identifier then UserQuery.byId identifier
  else if identifier.toList.contains '@' then UserQuery.byEmail identifier
  else UserQuery.byUsername identifier

def userMatchesQuery (q : UserQuery) (u : TMUser) : Bool :=
  match q with
  | UserQuery.byId s => u.oid == s
  | UserQuery.byEmail s => u.email == s
  | UserQuery.byUsername s => u.username == s

def get_user (db : TaskDB) (identifier : String) : Option TMUser :=
  db.users.find? (userMatchesQuery (userQueryOf identifier))

/-- The partial field map accepted by `TaskManager.update_task`, over the
task's updatable fields.  An outer `none` means the key is absent from
the Python dict; for the nullable fields `some none` means the key is
present with value `None`. -/
structure TaskUpdates where
  title : Option String := none
  description : Option String := none
  status : Option String := none
  priority : Option String := none
  due_date : Option (Option Int) := none
  completed_at : Option (Option Int) := none
  updated_at : Option Int := none
  tags : Option (List String) := none
deriving DecidableEq, Repr

/-- The in-place mutation of the `updates` dict at the top of
`update_task`: unconditionally set `updated_at`, then add `completed_at`
when status is being set to `"completed"` and the caller did not supply a
`completed_at` key. -/
def stampUpdates (updates : TaskUpdates) (now : Int) : TaskUpdates :=
  let u1 := { updates with updated_at := some now }
  if u1.status == some "completed" && u1.completed_at == none then
    { u1 with completed_at := some (some now) }
  else u1

/-- MongoDB `$set` of a partial field map on one task document. -/
def applySet (t : TaskDoc) (u : TaskUpdates) : TaskDoc :=
  { t with
    title := u.title.getD t.title,
    description := u.description.getD t.description,
    status := u.status.getD t.status,
    priority := u.priority.getD t.priority,
    due_date := u.due_date.getD t.due_date,
    completed_at := u.completed_at.getD t.completed_at,
    updated_at := u.updated_at.getD t.updated_at,
    tags := u.tags.getD t.tags }

/-- `update_one` on the tasks collection: rewrite the first matching
document and report `modified_count`, which is `1` only when the written
document differs from the stored one. -/
def updateFirst (ts : List TaskDoc) (p : TaskDoc → Bool) (f : TaskDoc → TaskDoc) :
    List TaskDoc × Nat :=
  match ts with
  | [] => ([], 0)
  | t :: rest =>
    if p t then (f t :: rest, if f t = t then 0 else 1)
    else
      let r := updateFirst rest p f
      (t :: r.1, r.2)

/-- `TaskManager.update_task`: stamp the update map, `$set` it on the
first document matching the identifier query, and return
`modified_count > 0`. -/
def update_task (db : TaskDB) (identifier : String) (updates : TaskUpdates)
    (now : Int) : Bool × TaskDB :=
  let stamped := stampUpdates updates now
  let r := updateFirst db.tasks (taskMatches identifier) (fun t => applySet t stamped)
  (decide (0 < r.2), { db with tasks := r.1 })

/-- `delete_one`: drop the first matching document. -/
def removeFirst (ts : List TaskDoc) (p : TaskDoc → Bool) : List TaskDoc :=
  match ts with
  | [] => []
  | t :: rest => if p t then rest else t :: removeFirst rest p

/-- `TaskManager.delete_task`: read the task first (for its `user_id`),
return `False` untouched when it is missing, otherwise `delete_one` and,
when `deleted_count > 0`, decrement the owner's `task_count` as the
follow-up update. -/
def delete_task (db : TaskDB) (identifier : String) : Bool × TaskDB :=
  match get_task db identifier with
  | none => (false, db)
  | some task =>
    if db.tasks.any (taskMatches identifier) then
      (true, { db with tasks := removeFirst db.tasks (taskMatches identifier),
                       users := incTaskCount db.users task.user_id (-1) })
    else
      (false, { db with tasks := removeFirst db.tasks (taskMatches identifier) })

/-- The filter of `TaskManager.get_overdue_tasks`:
`{"due_date": {"$lt": now}, "status": {"$nin": ["completed", "cancelled"]}}`.
A `null` `due_date` never satisfies `$lt` against a date. -/
def overdueMatches (now : Int) (t : TaskDoc) : Bool :=
  (match t.due_date with
   | some d => decide (d < now)
   | none => false) &&
  !(t.status == "completed" || t.status == "cancelled")

def get_overdue_tasks (db : TaskDB) (now : Int) : List TaskDoc :=
  db.tasks.filter (overdueMatches now)

/-- `n` successive `create_task` calls with the same parameters, also
reporting whether every call succeeded (returned an id). -/
def create_n_tasks (db : TaskDB) (title description user_id priority : String)
    (now : Int) : Nat → TaskDB × Bool
  | 0 => (db, true)
  | n + 1 =>
    let r := create_task db title description user_id priority none now
    let rest := create_n_tasks r.2 title description user_id priority now n
    (rest.1, r.1.isSome && rest.2)

/-! ## Blog application (`blog_system.py`) -/

/-- A document of the blog `users` collection, fields as in
`BlogSystem.create_user`. -/
structure BlogUser where
  oid : String
  username : String
  email : String
  password : String
  full_name : String
  bio : String
  created_date : Int
  last_login : Option Int
  article_count : Int
  comment_count : Int
  followers : List String
  following : List String
  profile_image : Option String
  is_active : Bool
deriving DecidableEq, Repr

/-- A document of the `articles` collection, fields as in
`BlogSystem.create_article`. -/
structure Article where
  oid : String
  title : String
  content : String
  author_id : String
  category : String
  tags : List String
  status : String
  created_date : Int
  published_date : Option Int
  updated_date : Int
  view_count : Int
  like_count : Int
  comment_count : Int
  likes : List String
  featured : Bool
  meta_description : String
  reading_time : Nat
deriving DecidableEq, Repr

/-- A document of the `comments` collection, fields as in
`BlogSystem.add_comment`. -/
structure BComment where
  oid : String
  article_id : String
  author_id : String
  content : String
  parent_id : Option String
  created_date : Int
  updated_date : Int
  like_count : Int
  likes : List String
  is_approved : Bool
deriving DecidableEq, Repr

/-- The blog database state. -/
structure BlogDB where
  users : List BlogUser
  articles : List Article
  comments : List BComment
  nextOid : Nat
deriving DecidableEq, Repr

/-- Python `str.split()` with no separator on a character list: the
maximal whitespace-free chunks, in order, with no empty pieces.  `acc`
holds the reversed chunk currently being read. -/
def splitWords (acc : List Char) : List Char → List (List Char)
  | [] => if acc.isEmpty then [] else [acc.reverse]
  | c :: cs =>
    if c.isWhitespace then
      if acc.isEmpty then splitWords [] cs
      else acc.reverse :: splitWords [] cs
    else splitWords (c :: acc) cs

/-- `len(content.split())`. -/
def wordCount (content : String) : Nat :=
  (splitWords [] content.toList).length

/-- Python `round(n / d)` for natural `n`, positive `d`: round to the
nearest integer with ties to even.  For the word counts and `d = 200`
used here the IEEE-754 double division `n / d` rounds to the same
integer as the exact quotient (exact halves are dyadic and hence
representable), so this integer definition is the exact behaviour. -/
def roundHalfEvenDiv (n d : Nat) : Nat :=
  let q := n / d
  let r := n % d
  if 2 * r < d then q
  else if d < 2 * r then q + 1
  else if q % 2 = 0 then q else q + 1

/-- `BlogSystem._calculate_reading_time`: `max(1, round(words / 200))`. -/
def calculate_reading_time (content : String) : Nat :=
  max 1 (roundHalfEvenDiv (wordCount content) 200)

/-- `BlogSystem.create_article`: build the article document (with the
derived `meta_description` and `reading_time` fields and the
status-dependent `published_date`) and insert it. -/
def create_article (db : BlogDB) (title content author_id category : String)
    (tags : List String) (status : String) (now : Int) :
    Option String × BlogDB :=
  let a : Article :=
    { oid := oidOf db.nextOid,
      title := title, content := content, author_id := author_id,
      category := category, tags := tags, status := status,
      created_date := now,
      published_date := if status == "published" then some now else none,
      updated_date := now,
      view_count := 0, like_count := 0, comment_count := 0, likes := [],
      featured := false,
      meta_description :=
        if 160 < content.length then content.take 160 ++ "..." else content,
      reading_time := calculate_reading_time content }
  (some a.oid, { db with articles := db.articles ++ [a], nextOid := db.nextOid + 1 })

/-- `update_one` on the articles collection, with `modified_count`
semantics as for tasks. -/
def updateFirstArticle (as : List Article) (p : Article → Bool) (f : Article → Article) :
    List Article × Nat :=
  match as with
  | [] => ([], 0)
  | a :: rest =>
    if p a then (f a :: rest, if f a = a then 0 else 1)
    else
      let r := updateFirstArticle rest p f
      (a :: r.1, r.2)

/-- `BlogSystem.like_article`: read the article; if the user is in its
`likes` list, `$pull` the user (removing every equal entry) and
`$inc like_count` by `-1`, otherwise `$push` the user and `$inc` by `1`;
return `modified_count > 0`.  An invalid `article_id` makes
`ObjectId(article_id)` raise, which the broad `except` turns into
`False` with no write. -/
def like_article (db : BlogDB) (article_id user_id : String) : Bool × BlogDB :=
  if !isValidObjectId article_id then (false, db)
  else
    match db.articles.find? (fun a => a.oid == article_id) with
    | none => (false, db)
    | some article =>
      let f : Article → Article :=
        if article.likes.contains user_id then
          fun a => { a with likes := a.likes.filter (fun x => x != user_id),
                            like_count := a.like_count - 1 }
        else
          fun a => { a with likes := a.likes ++ [user_id],
                            like_count := a.like_count + 1 }
      let r := updateFirstArticle db.articles (fun a => a.oid == article_id) f
      (decide (0 < r.2), { db with articles := r.1 })

/-- The `$addFields` popularity score of `get_popular_articles`:
`view_count * 1 + like_count * 3 + comment_count * 2`. -/
def popularity_score (a : Article) : Int :=
  a.view_count * 1 + a.like_count * 3 + a.comment_count * 2

/-- The `$match` stage of `get_popular_articles`: published articles with
`published_date >= date_threshold` (a `null` date never matches
`$gte`). -/
def popularMatches (threshold : Int) (a : Article) : Bool :=
  a.status == "published" &&
    (match a.published_date with
     | some d => decide (threshold ≤ d)
     | none => false)

/-- The `$sort {popularity_score: -1}` order on score-annotated
articles. -/
def scoreGe (p q : Article × Int) : Prop := q.2 ≤ p.2

instance : DecidableRel scoreGe :=
  fun p q => inferInstanceAs (Decidable (q.2 ≤ p.2))

instance : IsTotal (Article × Int) scoreGe :=
  ⟨fun p q => Int.le_total q.2 p.2⟩

instance : IsTrans (Article × Int) scoreGe :=
  ⟨fun _ _ _ hab hbc => le_trans hbc hab⟩

/-- `BlogSystem.get_popular_articles`: match published articles inside
the trailing window, annotate each with its popularity score, sort by
score descending, truncate to `limit`, then `$lookup`/`$unwind` the
author.  `$toObjectId` on an invalid `author_id` aborts the aggregation
(the `except` returns `[]`), and `$unwind` on an empty `author` array
drops the document. -/
def get_popular_articles (db : BlogDB) (now : Int) (days : Nat) (limit : Nat) :
    List (Article × Int) :=
  let date_threshold := now - (days : Int) * 86400
  let scored := (db.articles.filter (popularMatches date_threshold)).map
    (fun a => (a, popularity_score a))
  let top := (List.insertionSort scoreGe scored).take limit
  if top.any (fun p => !isValidObjectId p.1.author_id) then []
  else top.filter (fun p => db.users.any (fun u => u.oid == p.1.author_id))

/-- Python truthiness of the `parent_id` field: `None` and the empty
string are falsy. -/
def pyTruthy (o : Option String) : Bool :=
  match o with
  | none => false
  | some s => s != ""

/-- The `replies` list of the comment with id `k` in the comment map
(`[]` when `k` is not a key). -/
def repliesGet (m : List (String × List String)) (k : String) : List String :=
  match m.find? (fun e => e.1 == k) with
  | some e => e.2
  | none => []

/-- Append one reply to the entry of key `k` (the mutation
`parent["replies"].append(comment)` on the shared comment object). -/
def repliesAppend (m : List (String × List String)) (k v : String) :
    List (String × List String) :=
  match m with
  | [] => []
  | e :: rest => if e.1 == k then (e.1, e.2 ++ [v]) :: rest else e :: repliesAppend rest k v

/-- The result state of `_organize_comments`: the `replies` lists of
every comment (keyed by comment id, the `comment_map`), and the ids of
the root comments in order. -/
structure CommentForest where
  replies : List (String × List String)
  roots : List String
deriving DecidableEq, Repr

/-- One iteration of the second loop of `BlogSystem._organize_comments`:
a comment with a truthy `parent_id` is appended to its parent's replies
when the parent id is a key of the comment map and silently skipped
otherwise; a comment with a falsy `parent_id` becomes a root. -/
def organizeStep (ids : List String) (st : CommentForest) (c : BComment) :
    CommentForest :=
  if pyTruthy c.parent_id then
    if ids.contains (c.parent_id.getD "") then
      { st with replies := repliesAppend st.replies (c.parent_id.getD "") c.oid }
    else st
  else
    { st with roots := st.roots ++ [c.oid] }

/-- `BlogSystem._organize_comments`: first loop builds the id-keyed
comment map with empty `replies`; second loop attaches each comment to
its parent or records it as a root. -/
def organize_comments (comments : List BComment) : CommentForest :=
  let ids := comments.map (fun c => c.oid)
  comments.foldl (organizeStep ids)
    { replies := comments.map (fun c => (c.oid, [])), roots := [] }

/-! ## Concrete documents used to exercise the operations -/

set_option maxRecDepth 4000

def exUser : TMUser :=
  { oid := oidOf 0, username := "ahmed_dev", email := "ahmed@example.com",
    full_name := "Ahmed Mohamed", created_at := 0, task_count := 0, active := true }

def exTask : TaskDoc :=
  { oid := oidOf 1, task_id := "TASK-0001", title := "Develop UI",
    description := "Create UI", user_id := oidOf 0, status := "todo",
    priority := "high", created_at := 0, updated_at := 0, due_date := some 5,
    completed_at := none, tags := [], comments := [] }

def exDB : TaskDB := { users := [exUser], tasks := [exTask], nextOid := 2 }

def exDBEmpty : TaskDB := { users := [exUser], tasks := [], nextOid := 1 }

def exBlogUser : BlogUser :=
  { oid := oidOf 1, username := "john_doe", email := "john@example.com",
    password := "pw", full_name := "John Doe", bio := "", created_date := 0,
    last_login := none, article_count := 0, comment_count := 0, followers := [],
    following := [], profile_image := none, is_active := true }

def exArticle : Article :=
  { oid := oidOf 0, title := "Intro", content := "MongoDB intro",
    author_id := oidOf 1, category := "Technology", tags := [],
    status := "published", created_date := 0, published_date := some 0,
    updated_date := 0, view_count := 0, like_count := 2, comment_count := 0,
    likes := ["u", "v"], featured := false, meta_description := "MongoDB intro",
    reading_time := 1 }

def exBlogDB : BlogDB :=
  { users := [exBlogUser], articles := [exArticle], comments := [], nextOid := 2 }

/-- An article with 10 views, 2 likes and 1 comment. -/
def artEx18 : Article :=
  { exArticle with view_count := 10, like_count := 2, comment_count := 1 }

/-- The score-annotated pair the popularity report produces for
`exArticle`. -/
def pEx : Article × Int := (exArticle, 6)

/-- An article whose likes list holds the same user twice, with
`like_count` equal to its length. -/
def exArticleDup : Article := { exArticle with likes := ["u", "u"], like_count := 2 }

def exBlogDBDup : BlogDB := { exBlogDB with articles := [exArticleDup] }

/-- Root comment `A`. -/
def cA : BComment :=
  { oid := "a", article_id := "x", author_id := "u1", content := "A",
    parent_id := none, created_date := 0, updated_date := 0, like_count := 0,
    likes := [], is_approved := true }

/-- Comment `B`, a reply to `A`. -/
def cB : BComment := { cA with oid := "b", content := "B", parent_id := some "a" }

/-- Comment `C`, a reply to `B`. -/
def cC : BComment := { cA with oid := "c", content := "C", parent_id := some "b" }

/-- Comment `D`, whose parent id matches no comment. -/
def cD : BComment := { cA with oid := "d", content := "D", parent_id := some "z" }

/-- A 300-word content string. -/
def c300 : String := String.intercalate " " (List.replicate 300 "a")

/-! ## Counter maintenance (claim C1) -/

theorem countOf_incTaskCount (users : List TMUser) (uid : String) (d : Int) :
    countOf (incTaskCount users uid d) uid = (countOf users uid).map (fun c => c + d) := by
  induction users with
  | nil => rfl
  | cons u rest ih =>
    cases h : u.oid == uid with
    | true => simp [incTaskCount, countOf, List.find?_cons, h]
    | false => simpa [incTaskCount, countOf, List.find?_cons, h] using ih

theorem create_task_success_count (db : TaskDB) (title desc uid prio : String)
    (dd : Option Int) (now : Int)
    (h : (create_task db title desc uid prio dd now).1.isSome = true) :
    countOf (create_task db title desc uid prio dd now).2.users uid
      = (countOf db.users uid).map (fun c => c + 1) := by
  simp only [create_task] at h ⊢
  split_ifs at h ⊢ with h1 h2
  · simp at h
  · exact countOf_incTaskCount db.users uid 1
  · simp at h

theorem create_n_tasks_count (title desc uid prio : String) (now : Int) :
    ∀ (N : Nat) (db : TaskDB) (c : Int),
      (create_n_tasks db title desc uid prio now N).2 = true →
      countOf db.users uid = some c →
      countOf (create_n_tasks db title desc uid prio now N).1.users uid = some (c + N) := by
  intro N
  induction N with
  | zero =>
    intro db c _ hc
    simpa [create_n_tasks] using hc
  | succ n ih =>
    intro db c h hc
    simp only [create_n_tasks, Bool.and_eq_true] at h ⊢
    obtain ⟨h1, h2⟩ := h
    have hstep := create_task_success_count db title desc uid prio none now h1
    rw [hc] at hstep
    have hrec := ih (create_task db title desc uid prio none now).2 (c + 1) h2 hstep
    rw [hrec]
    congr 1
    push_cast
    ring

theorem delete_task_found (db : TaskDB) (ident : String) (t : TaskDoc)
    (h : get_task db ident = some t) :
    delete_task db ident =
      (true, { db with tasks := removeFirst db.tasks (taskMatches ident),
                       users := incTaskCount db.users t.user_id (-1) }) := by
  have hfind : db.tasks.find? (taskMatches ident) = some t := h
  have hany : db.tasks.any (taskMatches ident) = true :=
    List.any_eq_true.mpr ⟨t, List.mem_of_find?_eq_some hfind, List.find?_some hfind⟩
  simp [delete_task, h, hany]

/-- C1: every successful task creation increments the owning user's
`task_count` by exactly one (as the separate follow-up update modelled in
`create_task`), every deletion of an existing task decrements the owner's
`task_count` by exactly one, and consequently a user starting at
`task_count = 0` ends at `task_count = N` after `N` successful creations
with no deletions. -/
theorem taskCount_maintenance :
    (∀ (db : TaskDB) (title desc uid prio : String) (dd : Option Int) (now : Int) (c : Int),
       (create_task db title desc uid prio dd now).1.isSome = true →
       countOf db.users uid = some c →
       countOf (create_task db title desc uid prio dd now).2.users uid = some (c + 1)) ∧
    (∀ (db : TaskDB) (ident : String) (t : TaskDoc) (c : Int),
       get_task db ident = some t →
       countOf db.users t.user_id = some c →
       (delete_task db ident).1 = true ∧
       countOf (delete_task db ident).2.users t.user_id = some (c - 1)) ∧
    (∀ (db : TaskDB) (title desc uid prio : String) (now : Int) (N : Nat),
       (create_n_tasks db title desc uid prio now N).2 = true →
       countOf db.users uid = some 0 →
       countOf (create_n_tasks db title desc uid prio now N).1.users uid = some (N : Int)) := by
  refine ⟨?_, ?_, ?_⟩
  · intro db title desc uid prio dd now c h hc
    rw [create_task_success_count db title desc uid prio dd now h, hc]
    rfl
  · intro db ident t c h hc
    rw [delete_task_found db ident t h]
    refine ⟨rfl, ?_⟩
    rw [countOf_incTaskCount db.users t.user_id (-1), hc]
    simp [sub_eq_add_neg]
  · intro db title desc uid prio now N h hc
    have := create_n_tasks_count title desc uid prio now N db 0 h hc
    simpa using this

theorem taskCount_maintenance_witness :
    countOf (create_n_tasks exDBEmpty "t" "d" (oidOf 0) "medium" 0 2).1.users (oidOf 0)
      = some 2 := by
  have h := taskCount_maintenance.2.2 exDBEmpty "t" "d" (oidOf 0) "medium" 0 2
    (by decide) (by decide)
  simpa using h

/-! ## Missing-task deletion (claim C7) -/

/-- C7: deleting a task whose identifier matches nothing returns `False`
and leaves the whole database state (tasks and all user counters)
unchanged. -/
theorem deleteTask_missing_noop :
    ∀ (db : TaskDB) (ident : String),
      get_task db ident = none → delete_task db ident = (false, db) := by
  intro db ident h
  simp [delete_task, h]

theorem deleteTask_missing_noop_witness :
    delete_task exDB "TASK-9999" = (false, exDB) :=
  deleteTask_missing_noop exDB "TASK-9999" (by decide)

/-! ## User lookup disambiguation (claim C5) -/

/-- C5: `get_user` decides the query by the shape of the input, in this
order: a valid ObjectId string queries by `_id`, otherwise a string
containing `'@'` queries by email, otherwise by username. -/
theorem user_lookup_order :
    ∀ s : String,
      (isValidObjectId s = true → userQueryOf s = UserQuery.byId s) ∧
      (isValidObjectId s = false → s.toList.contains '@' = true →
        userQueryOf s = UserQuery.byEmail s) ∧
      (isValidObjectId s = false → s.toList.contains '@' = false →
        userQueryOf s = UserQuery.byUsername s) := by
  intro s
  refine ⟨fun h => by simp [userQueryOf, h],
          fun h1 h2 => by
            have h2' : '@' ∈ s.data := by simpa [String.toList] using h2
            simp [userQueryOf, h1, h2'],
          fun h1 h2 => by
            have h2' : '@' ∉ s.data := by simpa [String.toList] using h2
            simp [userQueryOf, h1, h2']⟩

theorem user_lookup_order_witness :
    userQueryOf "507f1f77bcf86cd799439011" = UserQuery.byId "507f1f77bcf86cd799439011" ∧
    userQueryOf "ahmed@example.com" = UserQuery.byEmail "ahmed@example.com" ∧
    userQueryOf "ahmed_dev" = UserQuery.byUsername "ahmed_dev" :=
  ⟨(user_lookup_order _).1 (by decide),
   (user_lookup_order _).2.1 (by decide) (by decide),
   (user_lookup_order _).2.2 (by decide) (by decide)⟩

/-! ## Overdue query (claim C3) -/

/-- C3: the overdue query returns exactly the stored tasks with a due
date strictly before `now` and a status outside
`{completed, cancelled}`; a task due exactly at `now`, or with no due
date, is not returned. -/
theorem overdue_exact :
    ∀ (db : TaskDB) (now : Int) (t : TaskDoc),
      t ∈ get_overdue_tasks db now ↔
        t ∈ db.tasks ∧ (∃ d, t.due_date = some d ∧ d < now) ∧
        t.status ≠ "completed" ∧ t.status ≠ "cancelled" := by
  intro db now t
  simp only [get_overdue_tasks, List.mem_filter, overdueMatches, Bool.and_eq_true,
    Bool.not_eq_true', Bool.or_eq_false_iff, beq_eq_false_iff_ne, ne_eq]
  cases hd : t.due_date <;> simp [hd, and_assoc]

/-! ## Update semantics (claims C2 and C6) -/

theorem updateFirst_mem (ts : List TaskDoc) (p : TaskDoc → Bool) (f : TaskDoc → TaskDoc)
    (t : TaskDoc) (h : ts.find? p = some t) :
    f t ∈ (updateFirst ts p f).1 := by
  induction ts with
  | nil => simp at h
  | cons a rest ih =>
    cases hp : p a with
    | true =>
      rw [List.find?_cons_of_pos _ hp] at h
      obtain rfl : a = t := by injection h
      simp [updateFirst, hp]
    | false =>
      rw [List.find?_cons_of_neg _ (by simp [hp])] at h
      simp only [updateFirst, hp]
      exact List.mem_cons_of_mem _ (ih h)

/-- C2: `update_task` stores, in place of the first task matching the
identifier, the task with the stamped update map applied: its
`updated_at` is unconditionally the current time; when the map sets
status to `"completed"` without supplying a `completed_at` key, the
stored `completed_at` is the current time; and a caller-supplied
`completed_at` value is stored unchanged. -/
theorem updateTask_timestamps :
    ∀ (db : TaskDB) (ident : String) (u : TaskUpdates) (now : Int) (t : TaskDoc),
      db.tasks.find? (taskMatches ident) = some t →
      applySet t (stampUpdates u now) ∈ (update_task db ident u now).2.tasks ∧
      (applySet t (stampUpdates u now)).updated_at = now ∧
      (u.status = some "completed" → u.completed_at = none →
        (applySet t (stampUpdates u now)).completed_at = some now) ∧
      (∀ v, u.completed_at = some v →
        (applySet t (stampUpdates u now)).completed_at = v) := by
  intro db ident u now t h
  refine ⟨?_, ?_, ?_, ?_⟩
  · simp only [update_task]
    exact updateFirst_mem db.tasks (taskMatches ident) _ t h
  · simp only [stampUpdates, applySet]
    split <;> simp
  · intro hs hc
    simp [stampUpdates, applySet, hs, hc]
  · intro v hv
    simp [stampUpdates, applySet, hv]

theorem updateTask_timestamps_witness :
    (applySet exTask (stampUpdates { status := some "completed" } 7)).completed_at
        = some 7 ∧
    (applySet exTask (stampUpdates { status := some "completed" } 7)).updated_at = 7 ∧
    applySet exTask (stampUpdates { status := some "completed" } 7)
        ∈ (update_task exDB "TASK-0001" { status := some "completed" } 7).2.tasks := by
  have h := updateTask_timestamps exDB "TASK-0001" { status := some "completed" } 7 exTask
    (by decide)
  exact ⟨h.2.2.1 rfl rfl, h.2.1, h.1⟩

theorem updateFirst_modified_iff (ts : List TaskDoc) (p : TaskDoc → Bool)
    (f : TaskDoc → TaskDoc) :
    0 < (updateFirst ts p f).2 ↔ ∃ t, ts.find? p = some t ∧ f t ≠ t := by
  induction ts with
  | nil => simp [updateFirst]
  | cons a rest ih =>
    cases hp : p a with
    | true =>
      rw [List.find?_cons_of_pos _ hp]
      simp only [updateFirst, hp, if_true]
      by_cases hf : f a = a <;> simp [hf]
    | false =>
      rw [List.find?_cons_of_neg _ (by simp [hp])]
      simpa [updateFirst, hp] using ih

/-- C6: the boolean returned by `update_task` is true exactly when the
database modified a document, i.e. when some task matches the identifier
and the stamped `$set` changes it; a missing task and a matching but
unchanged task both yield `false`, indistinguishably. -/
theorem updateTask_result_iff :
    ∀ (db : TaskDB) (ident : String) (u : TaskUpdates) (now : Int),
      (update_task db ident u now).1 = true ↔
        ∃ t, db.tasks.find? (taskMatches ident) = some t ∧
             applySet t (stampUpdates u now) ≠ t := by
  intro db ident u now
  simp only [update_task, decide_eq_true_eq]
  exact updateFirst_modified_iff db.tasks (taskMatches ident) _

/-! ## Popularity report (claim C8) -/

theorem popular_articles_mem (db : BlogDB) (now : Int) (days limit : Nat)
    (p : Article × Int) (hp : p ∈ get_popular_articles db now days limit) :
    p.1 ∈ db.articles ∧ p.1.status = "published" ∧
      (∃ d, p.1.published_date = some d ∧ now - (days : Int) * 86400 ≤ d) ∧
      p.2 = popularity_score p.1 := by
  simp only [get_popular_articles] at hp
  split at hp
  · simp at hp
  · have htop : p ∈ (List.insertionSort scoreGe
        ((db.articles.filter (popularMatches (now - (days : Int) * 86400))).map
          (fun a => (a, popularity_score a)))).take limit :=
      (List.mem_filter.mp hp).1
    have hsorted := List.mem_of_mem_take htop
    have hscored := (List.mem_insertionSort scoreGe).mp hsorted
    obtain ⟨a, ha, rfl⟩ := List.mem_map.mp hscored
    obtain ⟨hmem, hmatch⟩ := List.mem_filter.mp ha
    simp only [popularMatches, Bool.and_eq_true, beq_iff_eq] at hmatch
    obtain ⟨hstatus, hdate⟩ := hmatch
    refine ⟨hmem, hstatus, ?_, rfl⟩
    cases hd : a.published_date with
    | none => rw [hd] at hdate; simp at hdate
    | some d =>
      rw [hd] at hdate
      simp only [decide_eq_true_eq] at hdate
      exact ⟨d, rfl, hdate⟩

theorem popular_articles_sorted (db : BlogDB) (now : Int) (days limit : Nat) :
    List.Sorted scoreGe (get_popular_articles db now days limit) := by
  simp only [get_popular_articles]
  split
  · exact List.sorted_nil
  · exact List.Pairwise.sublist
      ((List.filter_sublist _).trans (List.take_sublist _ _))
      (List.sorted_insertionSort scoreGe _)

theorem popular_articles_len (db : BlogDB) (now : Int) (days limit : Nat) :
    (get_popular_articles db now days limit).length ≤ limit := by
  simp only [get_popular_articles]
  split
  · simp
  · exact le_trans ((List.filter_sublist _).length_le) (List.length_take_le _ _)

/-- C8: every entry of the popularity report is a stored published
article whose publication date lies inside the trailing window,
annotated with the score `view_count * 1 + like_count * 3 +
comment_count * 2`; the report is sorted by score descending and has at
most `limit` entries; and an article with 10 views, 2 likes and 1
comment scores 18. -/
theorem popular_articles_report :
    ∀ (db : BlogDB) (now : Int) (days limit : Nat),
      (∀ p ∈ get_popular_articles db now days limit,
         p.1 ∈ db.articles ∧ p.1.status = "published" ∧
         (∃ d, p.1.published_date = some d ∧ now - (days : Int) * 86400 ≤ d) ∧
         p.2 = popularity_score p.1) ∧
      (get_popular_articles db now days limit).length ≤ limit ∧
      List.Sorted scoreGe (get_popular_articles db now days limit) ∧
      (∀ a : Article, a.view_count = 10 → a.like_count = 2 → a.comment_count = 1 →
         popularity_score a = 18) := by
  intro db now days limit
  refine ⟨fun p hp => popular_articles_mem db now days limit p hp,
          popular_articles_len db now days limit,
          popular_articles_sorted db now days limit,
          fun a h1 h2 h3 => ?_⟩
  simp [popularity_score, h1, h2, h3]

theorem popular_articles_report_witness :
    (pEx.1 ∈ exBlogDB.articles ∧ pEx.1.status = "published" ∧
      (∃ d, pEx.1.published_date = some d ∧
        (10 : Int) - ((7 : Nat) : Int) * 86400 ≤ d) ∧
      pEx.2 = popularity_score pEx.1) ∧
    popularity_score artEx18 = 18 :=
  ⟨(popular_articles_report exBlogDB 10 7 5).1 pEx (by decide),
   (popular_articles_report exBlogDB 10 7 5).2.2.2 artEx18 rfl rfl rfl⟩

/-! ## Reading time (claim C9) -/

theorem rhed_nearest_aux (q s k : Nat) (hs : s < 200) (hk : 1 ≤ k) :
    Nat.dist
      (200 * max 1 (if 2 * s < 200 then q
                    else if 200 < 2 * s then q + 1
                    else if q % 2 = 0 then q else q + 1))
      (200 * q + s)
      ≤ Nat.dist (200 * k) (200 * q + s) := by
  simp only [Nat.dist]
  split_ifs <;> omega

/-- Among all integer minute counts `k ≥ 1`, the value
`max 1 (roundHalfEvenDiv w 200)` minimises the distance to `w / 200`. -/
theorem rhed_nearest (w k : Nat) (hk : 1 ≤ k) :
    Nat.dist (200 * max 1 (roundHalfEvenDiv w 200)) w ≤ Nat.dist (200 * k) w := by
  have h := rhed_nearest_aux (w / 200) (w % 200) k (Nat.mod_lt _ (by norm_num)) hk
  rw [Nat.div_add_mod w 200] at h
  exact h

/-- C9 counterexample: a 300-word content string gets reading time 2,
while "word count divided by 200, minimum 1" gives
`max 1 (300 / 200) = 1`. -/
theorem reading_time_claim_counterexample :
    calculate_reading_time c300 = 2 ∧ max 1 (wordCount c300 / 200) = 1 := by
  constructor <;> decide

/-- C9 (amended): the reading time stored at article creation is
`calculate_reading_time` of the content, a value that is at least 1
minute and, among all minute counts `k ≥ 1`, is nearest to
`word count / 200` (ties, at odd multiples of 100 words, go to the even
minute count). -/
theorem reading_time_nearest :
    ∀ (db : BlogDB) (title content author_id category : String)
      (tags : List String) (status : String) (now : Int),
      (∃ a : Article,
         (create_article db title content author_id category tags status now).2.articles
           = db.articles ++ [a] ∧
         a.content = content ∧ a.reading_time = calculate_reading_time content) ∧
      1 ≤ calculate_reading_time content ∧
      (∀ k, 1 ≤ k →
        Nat.dist (200 * calculate_reading_time content) (wordCount content)
          ≤ Nat.dist (200 * k) (wordCount content)) := by
  intro db title content author_id category tags status now
  refine ⟨⟨_, rfl, rfl, rfl⟩, le_max_left _ _, fun k hk => ?_⟩
  exact rhed_nearest (wordCount content) k hk

theorem reading_time_nearest_witness :
    1 ≤ calculate_reading_time "hello world" ∧
    Nat.dist (200 * calculate_reading_time "hello world") (wordCount "hello world")
      ≤ Nat.dist (200 * 2) (wordCount "hello world") :=
  ⟨(reading_time_nearest exBlogDB "t" "hello world" (oidOf 1) "c" [] "draft" 0).2.1,
   (reading_time_nearest exBlogDB "t" "hello world" (oidOf 1) "c" [] "draft" 0).2.2
     2 (by decide)⟩

/-! ## Like toggling (claim C10) -/

theorem updateFirstArticle_find (as : List Article) (p : Article → Bool)
    (f : Article → Article) (a : Article)
    (h : as.find? p = some a) (hpf : ∀ x, p x = true → p (f x) = true) :
    (updateFirstArticle as p f).1.find? p = some (f a) := by
  induction as with
  | nil => simp at h
  | cons b rest ih =>
    cases hp : p b with
    | true =>
      rw [List.find?_cons_of_pos _ hp] at h
      obtain rfl : b = a := by injection h
      simp only [updateFirstArticle, hp, if_true]
      exact List.find?_cons_of_pos _ (hpf _ hp)
    | false =>
      rw [List.find?_cons_of_neg _ (by simp [hp])] at h
      simp only [updateFirstArticle, hp, Bool.false_eq_true, if_false]
      rw [List.find?_cons_of_neg _ (by simp [hp])]
      exact ih h

theorem like_article_find (db : BlogDB) (article_id user_id : String) (a : Article)
    (hv : isValidObjectId article_id = true)
    (hfind : db.articles.find? (fun x => x.oid == article_id) = some a) :
    (like_article db article_id user_id).2.articles.find? (fun x => x.oid == article_id)
      = some (if a.likes.contains user_id
              then { a with likes := a.likes.filter (fun x => x != user_id),
                            like_count := a.like_count - 1 }
              else { a with likes := a.likes ++ [user_id],
                            like_count := a.like_count + 1 }) := by
  simp only [like_article, hv, Bool.not_true, Bool.false_eq_true, if_false, hfind]
  by_cases hc : a.likes.contains user_id
  · simp only [hc, if_true]
    exact updateFirstArticle_find db.articles _ _ a hfind (fun x hx => hx)
  · simp only [hc, if_false]
    exact updateFirstArticle_find db.articles _ _ a hfind (fun x hx => hx)

theorem filter_ne_of_not_mem (l : List String) (u : String) (h : u ∉ l) :
    l.filter (fun x => x != u) = l :=
  List.filter_eq_self.mpr (fun x hx => by
    have hne : x ≠ u := fun e => h (e ▸ hx)
    simpa using hne)

theorem filter_ne_append_perm (l : List String) (u : String) (h : l.count u = 1) :
    (l.filter (fun x => x != u) ++ [u]).Perm l := by
  induction l with
  | nil => simp at h
  | cons c t ih =>
    by_cases hcu : c = u
    · subst hcu
      have ht : t.count c = 0 := by
        rw [List.count_cons_self] at h
        omega
      have hnm : c ∉ t := List.count_eq_zero.mp ht
      rw [List.filter_cons]
      simp only [bne_self_eq_false, Bool.false_eq_true, if_false]
      rw [filter_ne_of_not_mem t c hnm]
      exact List.perm_append_singleton c t
    · have h' : t.count u = 1 := by
        rw [List.count_cons] at h
        simpa [hcu, Ne.symm hcu] using h
      rw [List.filter_cons]
      have hb : (c != u) = true := by simpa using hcu
      simp only [hb, if_true]
      simpa using (ih h').cons c

theorem length_filter_ne (l : List String) (u : String) (h : l.count u = 1) :
    (l.filter (fun x => x != u)).length + 1 = l.length := by
  have := (filter_ne_append_perm l u h).length_eq
  simpa using this

/-- C10 counterexample: the claim fails at two explicit inputs.  In a
database whose only article has likes `["u", "v"]`, two consecutive
`like_article` calls by `"u"` leave the likes list `["v", "u"]`, not
the original `["u", "v"]`: the list is not restored.  And in a
database whose only article has `like_count = 2` equal to the length of
its likes list `["u", "u"]`, one call by `"u"` leaves `like_count = 1`
but likes `[]` — the claimed preservation of
`like_count = length of likes` fails — and two calls restore
`like_count = 2` but leave likes `["u"]`, not even a permutation of the
original list. -/
theorem like_article_restore_counterexample :
    ((like_article (like_article exBlogDB (oidOf 0) "u").2 (oidOf 0) "u").2.articles.map
        (fun a => a.likes) = [["v", "u"]] ∧
     exBlogDB.articles.map (fun a => a.likes) = [["u", "v"]]) ∧
    (exArticleDup.like_count = exArticleDup.likes.length ∧
     exArticleDup.likes = ["u", "u"] ∧
     (like_article exBlogDBDup (oidOf 0) "u").2.articles.map
        (fun a => (a.like_count, a.likes)) = [(1, [])] ∧
     (like_article (like_article exBlogDBDup (oidOf 0) "u").2 (oidOf 0)
        "u").2.articles.map (fun a => (a.like_count, a.likes)) = [(2, ["u"])]) := by
  decide

/-- C10 (amended): `like_article` toggles membership — when the user is
in the likes list it removes every occurrence (`$pull`) and decrements
`like_count` by one, otherwise it appends the user (`$push`) and
increments `like_count` by one.  Two consecutive calls by the same user
always restore `like_count` to its original value; they restore the
likes list exactly when the user was not initially a liker, and up to
permutation when the user occurred exactly once (the counterexample
shows that for an initial liker the order, and for a duplicated user
even the multiset, need not be restored).  A call preserves the
equality `like_count = length of likes` provided the likes list has no
duplicate entries (the counterexample shows it breaks on a duplicated
list). -/
theorem like_article_toggle :
    ∀ (db : BlogDB) (article_id user_id : String) (a : Article),
      isValidObjectId article_id = true →
      db.articles.find? (fun x => x.oid == article_id) = some a →
      (a.likes.contains user_id = true →
         { a with likes := a.likes.filter (fun x => x != user_id),
                  like_count := a.like_count - 1 }
           ∈ (like_article db article_id user_id).2.articles) ∧
      (a.likes.contains user_id = false →
         { a with likes := a.likes ++ [user_id], like_count := a.like_count + 1 }
           ∈ (like_article db article_id user_id).2.articles) ∧
      (∃ a2, (like_article (like_article db article_id user_id).2 article_id
                user_id).2.articles.find? (fun x => x.oid == article_id) = some a2 ∧
             a2.like_count = a.like_count) ∧
      (a.likes.contains user_id = false →
         (like_article (like_article db article_id user_id).2 article_id
             user_id).2.articles.find? (fun x => x.oid == article_id) = some a) ∧
      (a.likes.count user_id = 1 →
         ∃ a2, (like_article (like_article db article_id user_id).2 article_id
                  user_id).2.articles.find? (fun x => x.oid == article_id) = some a2 ∧
               a2.like_count = a.like_count ∧ a2.likes.Perm a.likes) ∧
      (a.like_count = a.likes.length → a.likes.Nodup →
         ∃ a1, (like_article db article_id user_id).2.articles.find?
                  (fun x => x.oid == article_id) = some a1 ∧
               a1.like_count = a1.likes.length ∧ a1.likes.Nodup) := by
  intro db article_id user_id a hv hfind
  have hexact : a.likes.contains user_id = false →
      (like_article (like_article db article_id user_id).2 article_id
          user_id).2.articles.find? (fun x => x.oid == article_id) = some a := by
    intro hc
    have hnm : user_id ∉ a.likes := by simpa using hc
    have h1 := like_article_find db article_id user_id a hv hfind
    simp only [hc, Bool.false_eq_true, if_false] at h1
    set a1 : Article :=
      { a with likes := a.likes ++ [user_id], like_count := a.like_count + 1 } with ha1
    have hc2 : a1.likes.contains user_id = true := by
      rw [ha1]
      simp
    have h2 := like_article_find (like_article db article_id user_id).2 article_id
      user_id a1 hv h1
    simp only [hc2, if_true] at h2
    have hl : a1.likes.filter (fun x => x != user_id) = a.likes := by
      rw [ha1]
      simp only [List.filter_append]
      rw [filter_ne_of_not_mem a.likes user_id hnm]
      simp
    have hcnt : a1.like_count - 1 = a.like_count := by
      rw [ha1]
      simp
    rw [h2, hl, hcnt]
  refine ⟨?_, ?_, ?_, hexact, ?_, ?_⟩
  · intro hc
    have h1 := like_article_find db article_id user_id a hv hfind
    simp only [hc, if_true] at h1
    exact List.mem_of_find?_eq_some h1
  · intro hc
    have h1 := like_article_find db article_id user_id a hv hfind
    simp only [hc, Bool.false_eq_true, if_false] at h1
    exact List.mem_of_find?_eq_some h1
  · cases hc : a.likes.contains user_id with
    | false => exact ⟨a, hexact hc, rfl⟩
    | true =>
      have h1 := like_article_find db article_id user_id a hv hfind
      simp only [hc, if_true] at h1
      set a1 : Article :=
        { a with likes := a.likes.filter (fun x => x != user_id),
                 like_count := a.like_count - 1 } with ha1
      have hc2 : a1.likes.contains user_id = false := by
        rw [ha1]
        simp
      have h2 := like_article_find (like_article db article_id user_id).2 article_id
        user_id a1 hv h1
      simp only [hc2, Bool.false_eq_true, if_false] at h2
      exact ⟨_, h2, by simp⟩
  · intro hcount
    have hm : user_id ∈ a.likes := by
      have hpos : 0 < a.likes.count user_id := by omega
      exact List.count_pos_iff.mp hpos
    have hc : a.likes.contains user_id = true := by simpa using hm
    have h1 := like_article_find db article_id user_id a hv hfind
    simp only [hc, if_true] at h1
    set a1 : Article :=
      { a with likes := a.likes.filter (fun x => x != user_id),
               like_count := a.like_count - 1 } with ha1
    have hc2 : a1.likes.contains user_id = false := by
      rw [ha1]
      simp
    have h2 := like_article_find (like_article db article_id user_id).2 article_id
      user_id a1 hv h1
    simp only [hc2, Bool.false_eq_true, if_false] at h2
    refine ⟨_, h2, ?_, ?_⟩
    · simp
    · simpa using filter_ne_append_perm a.likes user_id hcount
  · intro hlen hnodup
    have h1 := like_article_find db article_id user_id a hv hfind
    by_cases hc : a.likes.contains user_id
    · simp only [hc, if_true] at h1
      have hm : user_id ∈ a.likes := by simpa using hc
      have hcount : a.likes.count user_id = 1 := List.count_eq_one_of_mem hnodup hm
      have hfl := length_filter_ne a.likes user_id hcount
      refine ⟨_, h1, ?_, ?_⟩
      · simp only
        rw [hlen]
        omega
      · exact hnodup.filter _
    · simp only [hc, Bool.false_eq_true, if_false] at h1
      have hnm : user_id ∉ a.likes := by simpa using hc
      refine ⟨_, h1, ?_, ?_⟩
      · simp only [List.length_append, List.length_singleton]
        rw [hlen]
        push_cast
        ring
      · exact ((List.perm_append_singleton user_id a.likes).nodup_iff).mpr
          (List.nodup_cons.mpr ⟨hnm, hnodup⟩)

theorem like_article_toggle_witness :
    (∃ a2, (like_article (like_article exBlogDBDup (oidOf 0) "u").2 (oidOf 0)
              "u").2.articles.find? (fun x => x.oid == oidOf 0) = some a2 ∧
           a2.like_count = exArticleDup.like_count) ∧
    (like_article (like_article exBlogDB (oidOf 0) "z").2 (oidOf 0) "z").2.articles.find?
        (fun x => x.oid == oidOf 0) = some exArticle ∧
    (∃ a2, (like_article (like_article exBlogDB (oidOf 0) "u").2 (oidOf 0)
              "u").2.articles.find? (fun x => x.oid == oidOf 0) = some a2 ∧
           a2.like_count = exArticle.like_count ∧ a2.likes.Perm exArticle.likes) :=
  ⟨(like_article_toggle exBlogDBDup (oidOf 0) "u" exArticleDup (by decide)
     (by decide)).2.2.1,
   (like_article_toggle exBlogDB (oidOf 0) "z" exArticle (by decide) (by decide)).2.2.2.1
     (by decide),
   (like_article_toggle exBlogDB (oidOf 0) "u" exArticle (by decide)
     (by decide)).2.2.2.2.1 (by decide)⟩

/-! ## Comment tree assembly (claim C4) -/

theorem repliesAppend_keys (m : List (String × List String)) (k v : String) :
    (repliesAppend m k v).map Prod.fst = m.map Prod.fst := by
  induction m with
  | nil => rfl
  | cons e rest ih =>
    cases h : e.1 == k with
    | true => simp [repliesAppend, h]
    | false => simp [repliesAppend, h, ih]

theorem organizeStep_keys (ids : List String) (st : CommentForest) (c : BComment) :
    ((organizeStep ids st c).replies).map Prod.fst = st.replies.map Prod.fst := by
  simp only [organizeStep]
  split_ifs <;> simp [repliesAppend_keys]

theorem organizeStep_replies_of_root (ids : List String) (st : CommentForest)
    (c : BComment) (h : pyTruthy c.parent_id = false) :
    (organizeStep ids st c).replies = st.replies := by
  simp [organizeStep, h]

theorem foldl_organize_roots (ids : List String) (cs : List BComment)
    (st : CommentForest) :
    (cs.foldl (organizeStep ids) st).roots
      = st.roots ++ (cs.filter (fun c => !pyTruthy c.parent_id)).map (fun c => c.oid) := by
  induction cs generalizing st with
  | nil => simp
  | cons c rest ih =>
    rw [List.foldl_cons, ih]
    cases h : pyTruthy c.parent_id with
    | true =>
      have hr : (organizeStep ids st c).roots = st.roots := by
        simp only [organizeStep, h, if_true]
        split <;> rfl
      rw [hr]
      simp [List.filter_cons, h]
    | false =>
      have hr : (organizeStep ids st c).roots = st.roots ++ [c.oid] := by
        simp [organizeStep, h]
      rw [hr]
      simp [List.filter_cons, h]

theorem repliesGet_init (cs : List BComment) (q : String) :
    repliesGet (cs.map (fun c => (c.oid, ([] : List String)))) q = [] := by
  induction cs with
  | nil => rfl
  | cons c rest ih =>
    cases h : c.oid == q with
    | true => simp [repliesGet, List.find?_cons, h]
    | false => simpa [repliesGet, List.find?_cons, h] using ih

theorem repliesAppend_cons (e : String × List String)
    (rest : List (String × List String)) (k v : String) :
    repliesAppend (e :: rest) k v
      = if e.1 == k then (e.1, e.2 ++ [v]) :: rest else e :: repliesAppend rest k v := rfl

theorem repliesGet_cons (e : String × List String)
    (rest : List (String × List String)) (k : String) :
    repliesGet (e :: rest) k = if e.1 == k then e.2 else repliesGet rest k := by
  cases h : e.1 == k <;> simp [repliesGet, List.find?_cons, h]

theorem repliesGet_append_self (m : List (String × List String)) (k v : String)
    (h : k ∈ m.map Prod.fst) :
    repliesGet (repliesAppend m k v) k = repliesGet m k ++ [v] := by
  induction m with
  | nil => simp at h
  | cons e rest ih =>
    rw [repliesAppend_cons]
    cases he : e.1 == k with
    | true => simp [he, repliesGet_cons]
    | false =>
      have h' : k ∈ rest.map Prod.fst := by
        rw [List.map_cons] at h
        rcases List.mem_cons.mp h with h0 | h0
        · exact absurd (beq_iff_eq.mpr h0.symm) (by simp [he])
        · exact h0
      simp [he, repliesGet_cons, ih h']

theorem repliesGet_append_mono (m : List (String × List String)) (k v q x : String)
    (hx : x ∈ repliesGet m q) :
    x ∈ repliesGet (repliesAppend m k v) q := by
  induction m with
  | nil => simp [repliesGet] at hx
  | cons e rest ih =>
    rw [repliesGet_cons] at hx
    rw [repliesAppend_cons]
    cases hq : e.1 == q with
    | true =>
      simp only [hq, if_true] at hx
      cases he : e.1 == k with
      | true =>
        simp only [he, if_true, repliesGet_cons]
        simp only [hq, if_true]
        exact List.mem_append_left _ hx
      | false =>
        simp only [he, Bool.false_eq_true, if_false, repliesGet_cons, hq, if_true]
        exact hx
    | false =>
      simp only [hq, Bool.false_eq_true, if_false] at hx
      cases he : e.1 == k with
      | true =>
        simp only [he, if_true, repliesGet_cons]
        simp only [hq, Bool.false_eq_true, if_false]
        exact hx
      | false =>
        simp only [he, Bool.false_eq_true, if_false, repliesGet_cons, hq]
        exact ih hx

theorem repliesGet_append_subset (m : List (String × List String)) (k v q x : String)
    (hx : x ∈ repliesGet (repliesAppend m k v) q) :
    x ∈ repliesGet m q ∨ x = v := by
  induction m with
  | nil => simp [repliesAppend, repliesGet] at hx
  | cons e rest ih =>
    rw [repliesAppend_cons] at hx
    rw [repliesGet_cons]
    cases he : e.1 == k with
    | true =>
      simp only [he, if_true, repliesGet_cons] at hx
      cases hq : e.1 == q with
      | true =>
        simp only [hq, if_true] at hx ⊢
        rcases List.mem_append.mp hx with h0 | h0
        · exact Or.inl h0
        · exact Or.inr (by simpa using h0)
      | false =>
        simp only [hq, Bool.false_eq_true, if_false] at hx ⊢
        exact Or.inl hx
    | false =>
      simp only [he, Bool.false_eq_true, if_false, repliesGet_cons] at hx
      cases hq : e.1 == q with
      | true =>
        simp only [hq, if_true] at hx ⊢
        exact Or.inl hx
      | false =>
        simp only [hq, Bool.false_eq_true, if_false] at hx ⊢
        exact ih hx

theorem foldl_organize_get_mono (ids : List String) (cs : List BComment)
    (st : CommentForest) (q x : String) (hx : x ∈ repliesGet st.replies q) :
    x ∈ repliesGet ((cs.foldl (organizeStep ids) st).replies) q := by
  induction cs generalizing st with
  | nil => exact hx
  | cons c rest ih =>
    rw [List.foldl_cons]
    apply ih
    simp only [organizeStep]
    split_ifs
    · exact repliesGet_append_mono _ _ _ _ _ hx
    · exact hx
    · exact hx

theorem foldl_organize_attach (ids : List String) (cs : List BComment)
    (st : CommentForest) (c : BComment) (p : String)
    (hc : c ∈ cs) (hp : c.parent_id = some p) (hne : p ≠ "")
    (hin : ids.contains p = true) (hkey : p ∈ st.replies.map Prod.fst) :
    c.oid ∈ repliesGet ((cs.foldl (organizeStep ids) st).replies) p := by
  induction cs generalizing st with
  | nil => simp at hc
  | cons c0 rest ih =>
    rw [List.foldl_cons]
    rcases List.mem_cons.mp hc with rfl | hc'
    · apply foldl_organize_get_mono
      have ht : pyTruthy c.parent_id = true := by
        rw [hp]
        simpa [pyTruthy] using hne
      have hgd : c.parent_id.getD "" = p := by rw [hp]; rfl
      simp only [organizeStep, ht, if_true, hgd, hin]
      rw [repliesGet_append_self st.replies p c.oid hkey]
      exact List.mem_append_right _ (by simp)
    · apply ih _ hc'
      rw [organizeStep_keys]
      exact hkey

theorem foldl_organize_get_subset (ids : List String) (cs : List BComment)
    (st : CommentForest) (q x : String)
    (hx : x ∈ repliesGet ((cs.foldl (organizeStep ids) st).replies) q) :
    x ∈ repliesGet st.replies q ∨
      ∃ c, c ∈ cs ∧ c.oid = x ∧
        ∃ p, c.parent_id = some p ∧ p ≠ "" ∧ ids.contains p = true := by
  induction cs generalizing st with
  | nil => exact Or.inl hx
  | cons c0 rest ih =>
    rw [List.foldl_cons] at hx
    rcases ih _ hx with h | ⟨c, hcm, hco, hpp⟩
    · cases h1 : pyTruthy c0.parent_id with
      | false =>
        rw [organizeStep_replies_of_root _ _ _ h1] at h
        exact Or.inl h
      | true =>
        cases h2 : ids.contains (c0.parent_id.getD "") with
        | false =>
          simp only [organizeStep, h1, if_true, h2, Bool.false_eq_true, if_false] at h
          exact Or.inl h
        | true =>
          simp only [organizeStep, h1, if_true, h2] at h
          rcases repliesGet_append_subset _ _ _ _ _ h with h' | rfl
          · exact Or.inl h'
          · refine Or.inr ⟨c0, List.mem_cons_self _ _, rfl, ?_⟩
            cases hpid : c0.parent_id with
            | none =>
              rw [hpid] at h1
              simp [pyTruthy] at h1
            | some p =>
              refine ⟨p, rfl, ?_, ?_⟩
              · rw [hpid] at h1
                simpa [pyTruthy] using h1
              · rw [hpid] at h2
                simpa using h2
    · exact Or.inr ⟨c, List.mem_cons_of_mem _ hcm, hco, hpp⟩

/-- C4: `_organize_comments` returns as roots exactly the records with
no (falsy) parent reference, in input order; attaches each record whose
parent id is a key of the comment map as a reply of that parent; and
silently drops every record whose parent id matches no input record —
it ends up neither a root nor in any replies list.  On the concrete
records `A` (root), `B` (parent `A`), `C` (parent `B`), `D` (parent a
nonexistent id), the result is the single root `A` with reply chain
`B`, `C`, and `D` is dropped without an error. -/
theorem comment_tree_assembly :
    (∀ cs : List BComment, (∀ c ∈ cs, c.parent_id ≠ some "") →
       (organize_comments cs).roots
         = (cs.filter (fun c => c.parent_id.isNone)).map (fun c => c.oid)) ∧
    (∀ (cs : List BComment) (c : BComment) (p : String),
       c ∈ cs → c.parent_id = some p → p ≠ "" →
       p ∈ cs.map (fun x => x.oid) →
       c.oid ∈ repliesGet (organize_comments cs).replies p) ∧
    (∀ (cs : List BComment) (c : BComment) (p : String),
       (cs.map (fun x => x.oid)).Nodup →
       c ∈ cs → c.parent_id = some p → p ≠ "" →
       p ∉ cs.map (fun x => x.oid) →
       c.oid ∉ (organize_comments cs).roots ∧
       ∀ q, c.oid ∉ repliesGet (organize_comments cs).replies q) ∧
    ((organize_comments [cA, cB, cC, cD]).roots = ["a"] ∧
     repliesGet (organize_comments [cA, cB, cC, cD]).replies "a" = ["b"] ∧
     repliesGet (organize_comments [cA, cB, cC, cD]).replies "b" = ["c"] ∧
     repliesGet (organize_comments [cA, cB, cC, cD]).replies "c" = [] ∧
     repliesGet (organize_comments [cA, cB, cC, cD]).replies "d" = [] ∧
     "d" ∉ (organize_comments [cA, cB, cC, cD]).roots) := by
  refine ⟨?_, ?_, ?_, by decide⟩
  · intro cs hne
    simp only [organize_comments]
    rw [foldl_organize_roots]
    simp only [List.nil_append]
    congr 1
    apply List.filter_congr
    intro c hcm
    cases hp : c.parent_id with
    | none => simp [pyTruthy]
    | some s =>
      have hs : s ≠ "" := fun e => hne c hcm (by rw [hp, e])
      simp [pyTruthy, hs]
  · intro cs c p hcm hp hne hpm
    simp only [organize_comments]
    apply foldl_organize_attach _ _ _ _ _ hcm hp hne
    · simpa using hpm
    · simpa [List.map_map, Function.comp] using hpm
  · intro cs c p hnd hcm hp hne hpnot
    constructor
    · intro hroot
      simp only [organize_comments] at hroot
      rw [foldl_organize_roots] at hroot
      simp only [List.nil_append] at hroot
      obtain ⟨c', hc'f, hc'o⟩ := List.mem_map.mp hroot
      have hc'cs : c' ∈ cs := (List.mem_filter.mp hc'f).1
      have hc'p : (!pyTruthy c'.parent_id) = true := (List.mem_filter.mp hc'f).2
      have hcc : c' = c := List.inj_on_of_nodup_map hnd hc'cs hcm hc'o
      subst hcc
      rw [hp] at hc'p
      simp [pyTruthy] at hc'p
      exact hne hc'p
    · intro q hq
      simp only [organize_comments] at hq
      rcases foldl_organize_get_subset _ _ _ _ _ hq with h | ⟨c', hc'm, hc'o, p', hp', hp'ne, hp'in⟩
      · rw [repliesGet_init] at h
        simp at h
      · have hcc : c' = c := List.inj_on_of_nodup_map hnd hc'm hcm hc'o
        subst hcc
        rw [hp] at hp'
        injection hp' with he
        subst he
        exact hpnot (by simpa using hp'in)

theorem comment_tree_assembly_witness :
    (organize_comments [cA, cB, cC, cD]).roots
      = (([cA, cB, cC, cD].filter (fun c => c.parent_id.isNone)).map (fun c => c.oid)) ∧
    cB.oid ∈ repliesGet (organize_comments [cA, cB, cC, cD]).replies "a" ∧
    cD.oid ∉ (organize_comments [cA, cB, cC, cD]).roots :=
  ⟨comment_tree_assembly.1 [cA, cB, cC, cD] (by decide),
   comment_tree_assembly.2.1 [cA, cB, cC, cD] cB "a" (by decide) (by decide)
     (by decide) (by decide),
   (comment_tree_assembly.2.2.1 [cA, cB, cC, cD] cD "z" (by decide) (by decide)
     (by decide) (by decide) (by decide)).1⟩
